import Mathlib

/-!
Verification development for the optimization-vector assembly and
dynamics-evaluation core of the BiorbdOptim repository
(bioptim/optimization/optimization_vector.py,
bioptim/dynamics/dynamics_functions.py,
bioptim/dynamics/fatigue/fatigue_dynamics.py).

Numeric values carried by the CasADi matrices are modelled as integers
(rationals where a division is involved): every claim below is either a
layout/ordering/size property, an error-path property, or an exact
algebraic identity, none of which depends on floating point.  Symbolic
MX/SX expressions evaluated at a concrete assignment are therefore plain
numbers here.  Index mappings (mapping.to_first / mapping.to_second) are
modelled as the identity, which matches the configurations exercised by
the claims (the inverse-dynamics rows of the defects deliberately bypass
the mapping in the source, see dynamics_functions.py line 705).
-/

namespace BiorbdOptim

/-- Concatenation of the images of a list under a list-valued function,
in order.  Used to model the nested append loops of the Python source. -/
def concatMap (f : α → List β) : List α → List β
  | [] => []
  | a :: l => f a ++ concatMap f l

/-- The slice v[off : off + len] of a flat numeric vector. -/
def sliceAt (v : List Int) (off len : Nat) : List Int :=
  (v.drop off).take len

/-- Whether an Except-valued computation raised (models a Python raise). -/
def isError {α : Type} : Except String α → Bool
  | Except.error _ => true
  | Except.ok _ => false

/-! ## Control types (bioptim/misc/enums.py, as used by the source under src/) -/

/-- The two control parameterizations supported by the assembler
(every other member of the Python enum raises NotImplementedError in
define_ocp_shooting_points, define_ocp_bounds and
define_ocp_initial_guess, so they never reach the size computations
modelled here). -/
inductive ControlType
  | CONSTANT
  | LINEAR_CONTINUOUS
deriving DecidableEq, BEq, Repr

/-! ## apply_parameters (dynamics_functions.py lines 588-606)

The global parameter vector is walked in declaration order; the slice
parameters[offset : offset + param.size] is handed to the registered
pre-dynamics callback.  In the source the offset increment sits INSIDE
the `if param.function` branch. -/

/-- A declared parameter as seen by apply_parameters: its declared size
and its optional pre-dynamics callback (identified by a numeric id;
none models a parameter declared without a function). -/
structure ParamDecl where
  size : Nat
  fn : Option Nat
deriving DecidableEq, Repr

/-- DynamicsFunctions.apply_parameters, faithful to the source: the
returned list records, in call order, each invoked callback together
with the slice of the parameter vector passed to it.  The offset is
advanced only when the parameter has a callback, exactly as in the
Python loop. -/
def applyParametersFrom (ps : List ParamDecl) (v : List Int) (offset : Nat) :
    List (Nat × List Int) :=
  match ps with
  | [] => []
  | p :: rest =>
    match p.fn with
    | some f => (f, sliceAt v offset p.size) :: applyParametersFrom rest v (offset + p.size)
    | none => applyParametersFrom rest v offset

/-- apply_parameters starting at offset 0, as the source does. -/
def applyParameters (ps : List ParamDecl) (v : List Int) : List (Nat × List Int) :=
  applyParametersFrom ps v 0

/-- The behaviour the claim describes (offset bookkeeping advancing by
every parameter's declared size, callback or not), written out so it can
be compared with the source's applyParameters. -/
def applyParametersDeclaredFrom (ps : List ParamDecl) (v : List Int) (offset : Nat) :
    List (Nat × List Int) :=
  match ps with
  | [] => []
  | p :: rest =>
    match p.fn with
    | some f =>
        (f, sliceAt v offset p.size) :: applyParametersDeclaredFrom rest v (offset + p.size)
    | none => applyParametersDeclaredFrom rest v (offset + p.size)

/-- The claim's slicing discipline starting at offset 0. -/
def applyParametersDeclared (ps : List ParamDecl) (v : List Int) : List (Nat × List Int) :=
  applyParametersDeclaredFrom ps v 0

/-! ## Scaling (optimization_vector.py lines 478-486)

The source converts internal (scaled) entries to physical ones with
x = x_scaled * scaling, one factor per slot entry. -/

/-- to_physical: elementwise multiplication by the scale table, from
optimization_vector.py lines 478 and 486 (x = x_scaled * scaling). -/
def toPhysical (scale x : List ℚ) : List ℚ :=
  List.zipWith (fun v s => v * s) x scale

/-- Modelled from the spec: to_internal(physical) = physical / scale,
applied elementwise per slot.  The dividing direction lives in
Bounds.scale / InitialGuess.scale (bioptim/limits/path_conditions.py),
which is not under src; the spec's contract in section 4.2 fixes it. -/
def toInternal (scale x : List ℚ) : List ℚ :=
  List.zipWith (fun v s => v / s) x scale

/-! ## Shooting points, vector, to_dictionaries
(optimization_vector.py lines 96-211, 366-436, 438-633)

A phase that owns its states and controls (states_phase_mapping_idx /
controls_phase_mapping_idx pointing at itself, index None) is modelled
by the matrices define_ocp_shooting_points builds for it, evaluated at a
concrete assignment: x_scaled[phase] is a matrix with one row per state
liberty and one column per declared sample (horzcat over nodes of the
vertcat over liberties, lines 531-536), u_scaled[phase] likewise
(lines 545-549; for CONSTANT control the terminal node contributes no
column, line 513). -/

/-- One phase after define_ocp_shooting_points, evaluated at an
assignment: xmat rows are state liberties (each row listing that
liberty's samples in column order), umat rows are control liberties. -/
structure PhaseMatrices where
  ns : Nat
  controlType : ControlType
  xmat : List (List Int)
  umat : List (List Int)
deriving Repr

/-- Column k of a phase matrix: the vertcat over liberties at node k. -/
def colAt (mat : List (List Int)) (k : Nat) : List Int :=
  mat.map (fun row => row.getD k 0)

/-- The state entries the vector property appends for one owner phase:
for k in range(ns+1), for each liberty, x_scaled[phase][liberty, k]
(lines 114-117), i.e. the columns of xmat flattened in node order. -/
def phaseVectorX (ph : PhaseMatrices) : List Int :=
  concatMap (fun k => colAt ph.xmat k) (List.range (ph.ns + 1))

/-- The node indices at which the vector property appends control
samples (line 141: every k unless the control type is CONSTANT and
k == ns). -/
def vectorControlNodes (ct : ControlType) (ns : Nat) : List Nat :=
  (List.range (ns + 1)).filter (fun k => !(ct == ControlType.CONSTANT) || !(k == ns))

/-- The control entries the vector property appends for one owner phase
(lines 140-148). -/
def phaseVectorU (ph : PhaseMatrices) : List Int :=
  concatMap (fun k => colAt ph.umat k) (vectorControlNodes ph.controlType ph.ns)

/-- OptimizationVector.vector: all phases' state entries, then all
phases' control entries, then the parameter entries
(vertcat(*x_scaled, *u_scaled, self.parameters_in_list.cx), line 211). -/
def ocpVector (phases : List PhaseMatrices) (paramsCx : List Int) : List Int :=
  concatMap phaseVectorX phases ++ concatMap phaseVectorU phases ++ paramsCx

/-- n_phase_x as the source computes it for an owner phase (line 540):
self.x_scaled[phase].size()[0], the ROW count of the horzcat matrix,
i.e. the number of state liberties. -/
def nPhaseX (ph : PhaseMatrices) : Nat := ph.xmat.length

/-- n_phase_u as the source computes it for an owner phase (line 554):
the row count of the control matrix. -/
def nPhaseU (ph : PhaseMatrices) : Nat := ph.umat.length

/-- n_all_x = sum(self.n_phase_x) (line 632). -/
def nAllX (phases : List PhaseMatrices) : Nat := (phases.map nPhaseX).sum

/-- n_all_u = sum(self.n_phase_u) (line 633). -/
def nAllU (phases : List PhaseMatrices) : Nat := (phases.map nPhaseU).sum

/-- Consecutive slices of a flat vector, one per given size, starting at
a given offset: the decoding loop of to_dictionaries. -/
def slicesFrom (sizes : List Nat) (v : List Int) (off : Nat) : List (List Int) :=
  match sizes with
  | [] => []
  | n :: rest => sliceAt v off n :: slicesFrom rest v (off + n)

/-- to_dictionaries, state part (lines 390-405): phase p's "all" array
is v[offset : offset + n_phase_x[p]], offsets accumulating in phase
order from 0.  Each slice is kept flat here; the source reshapes it
column-major (order="F"), which is exactly the flattening order
phaseVectorX uses. -/
def toDictStates (phases : List PhaseMatrices) (v : List Int) : List (List Int) :=
  slicesFrom (phases.map nPhaseX) v 0

/-- to_dictionaries, control part (lines 407-422): offsets accumulate
from n_all_x using n_phase_u. -/
def toDictControls (phases : List PhaseMatrices) (v : List Int) : List (List Int) :=
  slicesFrom (phases.map nPhaseU) v (nAllX phases)

/-- The concrete failing program for the round-trip claim: one phase,
one shooting interval, one state liberty with samples 10 and 11, one
CONSTANT control liberty with sample 20, no parameters. -/
def c1Phase : PhaseMatrices :=
  { ns := 1, controlType := ControlType.CONSTANT, xmat := [[10, 11]], umat := [[20]] }

/-! ## Bounds and initial-guess sizes
(optimization_vector.py lines 635-734 and 799-869) -/

/-- The number of control samples define_ocp_bounds allocates for a
phase (lines 704-707). -/
def boundsControlNs (ct : ControlType) (ns : Nat) : Nat :=
  match ct with
  | ControlType.CONSTANT => ns
  | ControlType.LINEAR_CONTINUOUS => ns + 1

/-- all_nu = nu * ns in define_ocp_bounds (line 711). -/
def boundsAllNu (nu : Nat) (ct : ControlType) (ns : Nat) : Nat :=
  nu * boundsControlNs ct ns

/-- The number of control samples define_ocp_initial_guess allocates
for a phase (lines 857-860, the same case split written at a second
site in the source). -/
def initControlNs (ct : ControlType) (ns : Nat) : Nat :=
  match ct with
  | ControlType.CONSTANT => ns
  | ControlType.LINEAR_CONTINUOUS => ns + 1

/-- The number of state samples a node contributes in
define_ocp_shooting_points (lines 470-485): a 1-by-(degree+1) symbol
when k != ns and the solver is direct collocation, a 1-by-1 symbol
otherwise. -/
def stateSamplesAtNode (colloc : Bool) (degree ns k : Nat) : Nat :=
  if k ≠ ns ∧ colloc = true then degree + 1 else 1

/-- Total state samples per liberty over all nodes of a phase. -/
def totalStateSamples (colloc : Bool) (degree ns : Nat) : Nat :=
  ((List.range (ns + 1)).map (stateSamplesAtNode colloc degree ns)).sum

/-- all_nx in define_ocp_bounds (lines 659-666):
nx * ns * (degree+1) + nx for direct collocation, nx * (ns+1)
otherwise. -/
def boundsAllNx (colloc : Bool) (nx ns degree : Nat) : Nat :=
  if colloc then nx * ns * (degree + 1) + nx else nx * (ns + 1)

/-! ## Fatigue models
(fatigue_dynamics.py; the concrete per-suffix derivative laws live in
xia_fatigue.py / michaud_fatigue.py, which are not under src) -/

/-- The per-suffix model stored in a MultiFatigueModel's models dict:
its scaling factor and the two suffix strings its class reports
(dynamics_suffix() and fatigue_suffix()). -/
structure FatigueSuffixModel where
  scaling : Int
  dynamicsSuffix : String
  fatigueSuffix : String

/-- One element of a FatigueUniqueList, i.e. the MultiFatigueModel a
group element carries: the shared flags, the per-suffix models, and the
per-suffix derivative law.  The law field is Modelled from the spec:
each suffix appends one additional first-order fatigue-derivative row
whose value depends on the current activation level and fatigue state
(spec section 4.5); the concrete laws are not under src, so the row
value is an abstract function of the suffix (the element and the
state/control stores are captured in the closure). -/
structure MultiFatigueEmb where
  state_only : Bool
  apply_to_joint_dynamics : Bool
  split_controls : Bool
  modelFor : String → FatigueSuffixModel
  law : String → Int

/-- A FatigueUniqueList for one variable kind: the suffix set shared by
the group, the keys of each element's models dict (iterated by the
muscle-path type check), and the elements. -/
structure FatigueGroupEmb where
  suffix : List String
  modelKeys : List String
  elts : List MultiFatigueEmb

/-- A FatigueList as the dynamics functions see it: an optional
"tau_scaled" group and an optional "muscles_scaled" group (the only two
keys the source ever looks up). -/
structure FatigueListEmb where
  tau : Option FatigueGroupEmb
  muscles : Option FatigueGroupEmb

/-- Number of elements whose state_only flag is set
(sum([t.models.state_only for t in tau_fatigue])). -/
def nStateOnly (g : FatigueGroupEmb) : Nat :=
  (g.elts.filter (fun e => e.state_only)).length

/-- Number of elements whose apply_to_joint_dynamics flag is set. -/
def nApplyToJoint (g : FatigueGroupEmb) : Nat :=
  (g.elts.filter (fun e => e.apply_to_joint_dynamics)).length

/-- MultiFatigueModel.dynamics (fatigue_dynamics.py lines 204-208):
fold _dynamics_per_suffix over the declared suffix set.  The per-suffix
step is Modelled from the spec: it appends one fatigue-derivative row
and leaves the existing rows untouched (spec section 4.5); the concrete
_dynamics_per_suffix implementations are not under src. -/
def multiFatigueDynamics (law : String → Int) (suffixes : List String)
    (dxdt : List Int) : List Int :=
  suffixes.foldl (fun d s => d ++ [law s]) dxdt

/-- FatigueUniqueList.dynamics (lines 354-357): fold each element's
MultiFatigueModel.dynamics over the list, in element order.  The
element index passed by the source is captured in each element's law
closure. -/
def fatigueUniqueListDynamics (elts : List (List String × (String → Int)))
    (dxdt : List Int) : List Int :=
  elts.foldl (fun d e => multiFatigueDynamics e.2 e.1 d) dxdt

/-- The (suffixes, law) pairs of a group, as FatigueUniqueList.dynamics
iterates them. -/
def tauGroupAsElts (g : FatigueGroupEmb) : List (List String × (String → Int)) :=
  g.elts.map (fun e => (g.suffix, e.law))

/-! ## Dynamics functions (dynamics_functions.py)

A phase's variable stores: nlp.states, nlp.controls and nlp.states_dot,
each mapping a variable name to its (already sliced) value when the
name is declared. -/

/-- The rigidbody dynamics variants dispatched on by torque_driven and
muscles_driven (bioptim/misc/enums.py, as used in the source). -/
inductive RigidBodyDynamics
  | ODE
  | DAE_INVERSE_DYNAMICS
  | DAE_FORWARD_DYNAMICS
  | DAE_INVERSE_DYNAMICS_JERK
  | DAE_FORWARD_DYNAMICS_JERK
deriving DecidableEq, BEq, Repr

/-- The variable stores of one NonLinearProgram phase. -/
structure Nlp where
  states : String → Option (List Int)
  controls : String → Option (List Int)
  statesDot : String → Option (List Int)

/-- DynamicsFunctions.get: the value of a declared variable
(mapping.to_second modelled as the identity). -/
def getVar (store : String → Option (List Int)) (name : String) : List Int :=
  (store name).getD []

/-- The external biomechanical model's call contract
(spec section 6), with apply_parameters already applied: the position
rate map computeQdot, forward dynamics (flag: with_contact), inverse
dynamics, the muscle torque map and the muscle activation derivative.
nlp.external_forces is empty in this embedding, so forward and inverse
dynamics produce a single column, as in the source's else branches
(lines 665-670 and 703-704). -/
structure BioModel where
  computeQdot : List Int → List Int → List Int
  forwardDynamics : Bool → List Int → List Int → List Int → List Int
  inverseDynamics : List Int → List Int → List Int → List Int
  muscularJointTorque : List Int → List Int → List Int → List Int
  activationDot : List Int → List Int

/-- The store the fatigable tau is read from (line 184): controls when
"tau_scaled" is a control, states otherwise. -/
def tauStoreOf (np : Nlp) : String → Option (List Int) :=
  if (np.controls "tau_scaled").isSome then np.controls else np.states

/-- The plain tau value (line 185). -/
def tauOfNlp (np : Nlp) : List Int :=
  getVar (tauStoreOf np) "tau_scaled"

/-- Elementwise sum of a nonempty family of equally sized vectors, as
Python's sum() over MX column vectors behaves in line 205. -/
def vecSum (ls : List (List Int)) : List Int :=
  match ls with
  | [] => []
  | h :: t => t.foldl (fun acc v => List.zipWith (· + ·) acc v) h

/-- The body of DynamicsFunctions.__get_fatigable_tau once a
"tau_scaled" fatigue group is present (lines 186-217).  Note the second
check repeats the n_state_only condition: the source re-tests
0 < n_state_only < len where the apply_to_joint_dynamics homogeneity
test was evidently intended (line 195), so that branch is dead; it is
kept here verbatim.  A heterogeneous apply_to_joint_dynamics group
still raises, through the apply_to_joint_dynamics != 0 check. -/
def getFatigableTauChecked (np : Nlp) (g : FatigueGroupEmb) : Except String (List Int) :=
  if 0 < nStateOnly g ∧ nStateOnly g < g.elts.length then
    Except.error "fatigue list without homogeneous state_only flag is not supported yet"
  else if 0 < nStateOnly g ∧ nStateOnly g < g.elts.length then
    Except.error "fatigue list without homogeneous apply_to_joint_dynamics flag is not supported yet"
  else if nApplyToJoint g ≠ 0 then
    Except.error "apply_to_joint_dynamics is not implemented for joint torque"
  else
    match g.elts with
    | [] => Except.error "list index out of range"
    | e0 :: _ =>
      if !e0.split_controls && (np.controls "tau_scaled").isSome then
        Except.ok (tauOfNlp np)
      else if e0.state_only then
        Except.ok (vecSum (g.suffix.map (fun s => getVar (tauStoreOf np) ("tau_scaled_" ++ s))))
      else
        Except.ok ((g.elts.enum).map (fun ie =>
          (g.suffix.map (fun s =>
            (getVar np.states ("tau_scaled_" ++ s ++ "_" ++ (ie.2.modelFor s).dynamicsSuffix)).getD ie.1 0
              * (ie.2.modelFor s).scaling)).foldl (· + ·) 0))

/-- DynamicsFunctions.__get_fatigable_tau (lines 163-217). -/
def getFatigableTau (np : Nlp) (fatigue : Option FatigueListEmb) : Except String (List Int) :=
  match fatigue with
  | none => Except.ok (tauOfNlp np)
  | some fl =>
    match fl.tau with
    | none => Except.ok (tauOfNlp np)
    | some g => getFatigableTauChecked np g

/-- DynamicsFunctions.torque_driven (lines 74-161).  The MX index
assignments into dxdt are modelled as slot concatenation in the state
order q, qdot (, qddot); the defects block keeps its two row groups in
source order, with the inverse-dynamics rows deliberately un-mapped. -/
def torqueDriven (m : BioModel) (np : Nlp) (rbd : RigidBodyDynamics)
    (withContact : Bool) (fatigue : Option FatigueListEmb) :
    Except String (List Int × Option (List Int)) :=
  match getFatigableTau np fatigue with
  | Except.error msg => Except.error msg
  | Except.ok tau =>
    let q := getVar np.states "q_scaled"
    let qdot := getVar np.states "qdot_scaled"
    let dq := m.computeQdot q qdot
    let dxdt0 : List Int :=
      if rbd = RigidBodyDynamics.DAE_INVERSE_DYNAMICS ∨
          rbd = RigidBodyDynamics.DAE_FORWARD_DYNAMICS then
        dq ++ getVar np.controls "qddot_scaled"
      else if rbd = RigidBodyDynamics.DAE_INVERSE_DYNAMICS_JERK ∨
          rbd = RigidBodyDynamics.DAE_FORWARD_DYNAMICS_JERK then
        dq ++ getVar np.states "qddot_scaled" ++ getVar np.controls "qdddot_scaled"
      else
        dq ++ m.forwardDynamics withContact q qdot tau
    let dxdt1 : List Int :=
      match fatigue with
      | some fl =>
        match fl.tau with
        | some g => fatigueUniqueListDynamics (tauGroupAsElts g) dxdt0
        | none => dxdt0
      | none => dxdt0
    let defects : Option (List Int) :=
      match withContact, fatigue with
      | false, none =>
        some (List.zipWith (fun a b => a - b) dq
                (m.computeQdot q (getVar np.statesDot "qdot_scaled"))
              ++ List.zipWith (fun a b => a - b) tau
                (m.inverseDynamics q qdot (getVar np.statesDot "qddot_scaled")))
      | _, _ => none
    Except.ok (dxdt1, defects)

/-- The defects component of a dynamics evaluation (none when the
evaluation raised). -/
def defectsOf : Except String (List Int × Option (List Int)) → Option (List Int)
  | Except.ok (_, d) => d
  | Except.error _ => none

/-- The fatigue sanity-check block of DynamicsFunctions.muscles_driven
(lines 437-463), run when a "muscles_scaled" fatigue group is present:
heterogeneous state_only, heterogeneous apply_to_joint_dynamics, and
mixed per-suffix model types each raise; otherwise the activations are
re-read from the fatigued dynamics state when no element is state_only,
and the fatigue states are extracted when apply_to_joint_dynamics is
set. -/
def muscleFatigueChecks (np : Nlp) (g : FatigueGroupEmb) (musAct : List Int) :
    Except String (List Int × Option (List Int)) :=
  match g.suffix with
  | [] => Except.error "list index out of range"
  | fatigueName :: _ =>
    if 0 < nStateOnly g ∧ nStateOnly g < g.elts.length then
      Except.error (fatigueName ++ " list without homogeneous state_only flag is not supported yet")
    else if 0 < nApplyToJoint g ∧ nApplyToJoint g < g.elts.length then
      Except.error (fatigueName ++ " list without homogeneous apply_to_joint_dynamics flag is not supported yet")
    else
      match g.elts with
      | [] => Except.error "list index out of range"
      | e0 :: _ =>
        if g.elts.any (fun e => g.modelKeys.any (fun k =>
            !((e.modelFor k).dynamicsSuffix == (e0.modelFor fatigueName).dynamicsSuffix) ||
            !((e.modelFor k).fatigueSuffix == (e0.modelFor fatigueName).fatigueSuffix))) then
          Except.error (fatigueName ++ " must be of all same types")
        else
          Except.ok
            ((if nStateOnly g = 0 then
                getVar np.states ("muscles_scaled_" ++ (e0.modelFor fatigueName).dynamicsSuffix)
              else musAct),
             (if 0 < nApplyToJoint g then
                some (getVar np.states ("muscles_scaled_" ++ (e0.modelFor fatigueName).fatigueSuffix))
              else none))

/-- The fatigue resolution step of muscles_driven: no fatigue list, or
a list without a "muscles_scaled" key, leaves the activations as read. -/
def muscleFatigueResolve (np : Nlp) (fatigue : Option FatigueListEmb) (musAct : List Int) :
    Except String (List Int × Option (List Int)) :=
  match fatigue with
  | none => Except.ok (musAct, none)
  | some fl =>
    match fl.muscles with
    | none => Except.ok (musAct, none)
    | some g => muscleFatigueChecks np g musAct

/-- DynamicsFunctions.compute_tau_from_muscle (lines 729-764): each
activation is attenuated by (1 - fatigue_state) when fatigue states are
supplied. -/
def computeTauFromMuscle (m : BioModel) (q qdot musAct : List Int)
    (fatigueStates : Option (List Int)) : List Int :=
  let acts := match fatigueStates with
    | some fs => List.zipWith (fun a f => a * (1 - f)) musAct fs
    | none => musAct
  m.muscularJointTorque q qdot acts

/-- DynamicsFunctions.muscles_driven (lines 386-489), modelled with
slot concatenation in the state order q, qdot (, muscles); the muscle
excitation derivative rows are appended when muscles are states, and
the fatigue augmentation appends its rows last. -/
def musclesDriven (m : BioModel) (np : Nlp) (withContact : Bool)
    (rbd : RigidBodyDynamics) (withTorque : Bool)
    (fatigue : Option FatigueListEmb) :
    Except String (List Int × Option (List Int)) :=
  let resTauE : Except String (Option (List Int)) :=
    if withTorque then
      match getFatigableTau np fatigue with
      | Except.error msg => Except.error msg
      | Except.ok t => Except.ok (some t)
    else Except.ok none
  match resTauE with
  | Except.error msg => Except.error msg
  | Except.ok residualTau =>
    let q := getVar np.states "q_scaled"
    let qdot := getVar np.states "qdot_scaled"
    let musInStates := (np.states "muscles_scaled").isSome
    let musAct0 := getVar (if musInStates then np.states else np.controls) "muscles_scaled"
    match muscleFatigueResolve np fatigue musAct0 with
    | Except.error msg => Except.error msg
    | Except.ok (musActivations, fatigueStates) =>
      let musclesTau := computeTauFromMuscle m q qdot musActivations fatigueStates
      let tau := match residualTau with
        | some rt => List.zipWith (· + ·) musclesTau rt
        | none => musclesTau
      let dq := m.computeQdot q qdot
      let dxdt0 : List Int :=
        if rbd = RigidBodyDynamics.DAE_INVERSE_DYNAMICS then
          dq ++ getVar np.controls "qddot_scaled"
        else
          dq ++ m.forwardDynamics withContact q qdot tau
      let dxdt1 : List Int :=
        if musInStates then dxdt0 ++ m.activationDot (getVar np.controls "muscles_scaled")
        else dxdt0
      let dxdt2 : List Int :=
        match fatigue with
        | some fl =>
          match fl.muscles with
          | some g => fatigueUniqueListDynamics (tauGroupAsElts g) dxdt1
          | none => dxdt1
        | none => dxdt1
      Except.ok (dxdt2, none)

/-! ## add_parameter (optimization_vector.py lines 889-918)

The ParameterList container (bioptim/optimization/parameters.py) is not
under src; as its call sites in add_parameter and extract_phase_time
use it, it is a name-keyed ordered pool, modelled as a list of
parameters with membership and index taken on the first name match. -/

/-- A parameter in the pool: its symbolic cx/mx columns and scaling are
lists an evaluation turns into numbers, its bounds a min and max column,
its function the optional pre-dynamics callback id, its params the
extra keyword arguments. -/
structure Parameter where
  name : String
  size : Nat
  cx : List Int
  mx : List Int
  scaling : List Int
  boundsMin : List Int
  boundsMax : List Int
  initial_guess : List Int
  function : Option Nat
  params : List (String × Int)
deriving DecidableEq, Repr

/-- The first pool entry with the given name, as
self.parameters_in_list.index(param.name) locates it. -/
def findParam (ps : List Parameter) (name : String) : Option Parameter :=
  match ps with
  | [] => none
  | e :: rest => if e.name == name then some e else findParam rest name

/-- Replace the first entry with the given name. -/
def replaceFirst (ps : List Parameter) (name : String) (e2 : Parameter) : List Parameter :=
  match ps with
  | [] => []
  | e :: rest => if e.name == name then e2 :: rest else e :: replaceFirst rest name e2

/-- The names in the pool, in order. -/
def paramNames (ps : List Parameter) : List String :=
  ps.map (fun p => p.name)

/-- The in-place merge add_parameter performs on an existing entry
(lines 909-916): size grows by the new size, cx/mx/scaling are
vertically concatenated, bounds and initial guess concatenated. -/
def mergeParam (e p : Parameter) : Parameter :=
  { e with
    size := e.size + p.size,
    cx := e.cx ++ p.cx,
    mx := e.mx ++ p.mx,
    scaling := e.scaling ++ p.scaling,
    boundsMin := e.boundsMin ++ p.boundsMin,
    boundsMax := e.boundsMax ++ p.boundsMax,
    initial_guess := e.initial_guess ++ p.initial_guess }

/-- OptimizationVector.add_parameter (lines 889-918), with the source's
check order: the function comparison first, then the size/cx/mx/scaling
merge, then the extra-params comparison (whose failure raises), then
the bounds and initial-guess concatenation; an unseen name is appended
to the pool. -/
def addParameter : List Parameter → Parameter → Except String (List Parameter)
  | [], p => Except.ok [p]
  | e :: rest, p =>
    if e.name == p.name then
      if e.function ≠ p.function then
        Except.error "Pre dynamic function of same parameters must be the same"
      else
        let e1 := { e with
          size := e.size + p.size,
          cx := e.cx ++ p.cx,
          mx := e.mx ++ p.mx,
          scaling := e.scaling ++ p.scaling }
        if p.params ≠ e.params then
          Except.error "Extra parameters of same parameters must be the same"
        else
          Except.ok ({ e1 with
            boundsMin := e1.boundsMin ++ p.boundsMin,
            boundsMax := e1.boundsMax ++ p.boundsMax,
            initial_guess := e1.initial_guess ++ p.initial_guess } :: rest)
    else
      match addParameter rest p with
      | Except.error msg => Except.error msg
      | Except.ok rest2 => Except.ok (e :: rest2)

/-! ## Heterogeneity of fatigue flags -/

/-- A group whose members disagree on state_only: some but not all set
the flag (the 0 < n_state_only < len condition of the source). -/
def heterogeneousStateOnly (g : FatigueGroupEmb) : Prop :=
  0 < nStateOnly g ∧ nStateOnly g < g.elts.length

/-- A group whose members disagree on apply_to_joint_dynamics. -/
def heterogeneousApplyToJoint (g : FatigueGroupEmb) : Prop :=
  0 < nApplyToJoint g ∧ nApplyToJoint g < g.elts.length

/-! ## Concrete evaluation inputs used by witnesses and
counterexamples -/

/-- A concrete biomechanical model: the rate map is the identity on
qdot, forward dynamics returns a single zero acceleration, inverse
dynamics returns the constant torque 7. -/
def mConcrete : BioModel :=
  { computeQdot := fun _ v => v,
    forwardDynamics := fun _ _ _ _ => [0],
    inverseDynamics := fun _ _ _ => [7],
    muscularJointTorque := fun _ _ a => a,
    activationDot := fun a => a }

/-- A concrete one-degree-of-freedom torque-driven phase whose declared
state derivatives are consistent with its states and whose torque
control matches the model's inverse dynamics. -/
def npConcrete : Nlp :=
  { states := fun n =>
      if n == "q_scaled" then some [1]
      else if n == "qdot_scaled" then some [2]
      else none,
    controls := fun n => if n == "tau_scaled" then some [7] else none,
    statesDot := fun n =>
      if n == "qdot_scaled" then some [2]
      else if n == "qddot_scaled" then some [0]
      else none }

/-- A concrete per-suffix fatigue model. -/
def fsmConcrete : FatigueSuffixModel :=
  { scaling := 1, dynamicsSuffix := "mf", fatigueSuffix := "mf_xia" }

/-- A fatigue element with both flags clear. -/
def eltFF : MultiFatigueEmb :=
  { state_only := false, apply_to_joint_dynamics := false, split_controls := true,
    modelFor := fun _ => fsmConcrete, law := fun _ => 0 }

/-- A fatigue element with state_only set. -/
def eltTF : MultiFatigueEmb :=
  { state_only := true, apply_to_joint_dynamics := false, split_controls := true,
    modelFor := fun _ => fsmConcrete, law := fun _ => 0 }

/-- A fatigue element with apply_to_joint_dynamics set. -/
def eltFT : MultiFatigueEmb :=
  { state_only := false, apply_to_joint_dynamics := true, split_controls := true,
    modelFor := fun _ => fsmConcrete, law := fun _ => 0 }

/-- A two-element group heterogeneous in state_only. -/
def gHetStateOnly : FatigueGroupEmb :=
  { suffix := ["minus", "plus"], modelKeys := ["xia"], elts := [eltTF, eltFF] }

/-- A two-element group heterogeneous in apply_to_joint_dynamics. -/
def gHetApply : FatigueGroupEmb :=
  { suffix := ["muscle_fatigue"], modelKeys := ["xia"], elts := [eltFT, eltFF] }

/-- Concrete parameters for the add_parameter witness: an existing
"mass" entry. -/
def pMassA : Parameter :=
  { name := "mass", size := 1, cx := [100], mx := [200], scaling := [1],
    boundsMin := [-10], boundsMax := [10], initial_guess := [5],
    function := some 0, params := [("segment", 1)] }

/-- A second "mass" parameter with the same callback and extra params,
to be merged into the existing entry. -/
def pMassB : Parameter :=
  { name := "mass", size := 2, cx := [101, 102], mx := [201, 202], scaling := [1, 1],
    boundsMin := [-10, -10], boundsMax := [10, 10], initial_guess := [6, 7],
    function := some 0, params := [("segment", 1)] }

/-! ## Shared helper lemmas -/

/-- Elementwise difference of a vector with itself is the zero vector. -/
theorem zipWith_sub_self (l : List Int) :
    List.zipWith (fun a b => a - b) l l = List.replicate l.length 0 := by
  induction l with
  | nil => rfl
  | cons a t ih => simp [ih, List.replicate_succ]

/-- Length of the flattened columns of a matrix. -/
theorem length_concatMap_colAt (mat : List (List Int)) (l : List Nat) :
    (concatMap (fun k => colAt mat k) l).length = l.length * mat.length := by
  induction l with
  | nil => simp [concatMap]
  | cons k t ih =>
    have hc : concatMap (fun j => colAt mat j) (k :: t)
        = colAt mat k ++ concatMap (fun j => colAt mat j) t := rfl
    rw [hc, List.length_append, ih]
    simp only [colAt, List.length_map, List.length_cons]
    ring

/-- apply_parameters behaves as if the parameters without a callback
had been removed from the declaration list: the offset never advances
for them. -/
theorem applyParametersFrom_filter (ps : List ParamDecl) (v : List Int) (off : Nat) :
    applyParametersFrom ps v off
      = applyParametersDeclaredFrom (ps.filter (fun p => p.fn.isSome)) v off := by
  induction ps generalizing off with
  | nil => rfl
  | cons p t ih =>
    cases hf : p.fn with
    | none => simp [applyParametersFrom, hf, List.filter_cons, ih]
    | some f =>
      simp [applyParametersFrom, applyParametersDeclaredFrom, hf, List.filter_cons, ih]

/-- The node filter of the vector property keeps exactly the
non-terminal nodes under CONSTANT control. -/
theorem vectorControlNodes_constant (ns : Nat) :
    vectorControlNodes ControlType.CONSTANT ns = List.range ns := by
  unfold vectorControlNodes
  rw [List.range_succ, List.filter_append]
  have h1 : (List.range ns).filter
      (fun k => !(ControlType.CONSTANT == ControlType.CONSTANT) || !(k == ns))
      = List.range ns := by
    apply List.filter_eq_self.mpr
    intro a ha
    have hlt : a ≠ ns := Nat.ne_of_lt (List.mem_range.mp ha)
    simp [hlt]
  rw [h1]
  simp
  rfl

/-- The node filter keeps every node under LINEAR_CONTINUOUS control. -/
theorem vectorControlNodes_linear (ns : Nat) :
    vectorControlNodes ControlType.LINEAR_CONTINUOUS ns = List.range (ns + 1) := by
  unfold vectorControlNodes
  apply List.filter_eq_self.mpr
  intro a _
  rfl

/-- Mapping a function over a range on which it is constant. -/
theorem map_range_const (f : Nat → Nat) (n c : Nat) (h : ∀ k, k < n → f k = c) :
    (List.range n).map f = List.replicate n c := by
  induction n with
  | zero => rfl
  | succ m ih =>
    rw [List.range_succ, List.map_append, ih (fun k hk => h k (Nat.lt_succ_of_lt hk))]
    simp [h m (Nat.lt_succ_self m), List.replicate_succ']

/-- MultiFatigueModel.dynamics appends exactly the per-suffix rows, in
suffix-declaration order, after the untouched input rows. -/
theorem multiFatigueDynamics_eq (law : String → Int) (sfx : List String) (dxdt : List Int) :
    multiFatigueDynamics law sfx dxdt = dxdt ++ sfx.map law := by
  induction sfx generalizing dxdt with
  | nil => simp [multiFatigueDynamics]
  | cons s t ih =>
    show multiFatigueDynamics law t (dxdt ++ [law s]) = _
    rw [ih]
    simp

/-- FatigueUniqueList.dynamics appends each element's rows in element
order, after the untouched input rows. -/
theorem fatigueUniqueListDynamics_eq (elts : List (List String × (String → Int)))
    (dxdt : List Int) :
    fatigueUniqueListDynamics elts dxdt
      = dxdt ++ concatMap (fun e => e.1.map e.2) elts := by
  induction elts generalizing dxdt with
  | nil => simp [fatigueUniqueListDynamics, concatMap]
  | cons e t ih =>
    show fatigueUniqueListDynamics t (multiFatigueDynamics e.2 e.1 dxdt) = _
    rw [ih, multiFatigueDynamics_eq]
    simp [concatMap]

/-! ## Claims -/

/-- C1: the claim states that to_dictionaries(vector()) reproduces a
known assignment exactly, at the offsets computed during assembly.  The
code computes n_phase_x/n_phase_u from size()[0] of the horzcat matrix,
i.e. from the LIBERTY count instead of the sample count, so the decoder
reads wrong offsets: at the concrete one-phase program (ns = 1, one
state liberty with samples 10 and 11, one CONSTANT control liberty with
sample 20) the flat vector is [10, 11, 20], yet to_dictionaries decodes
the state block as [10] and the control block as [11] — a state sample
— instead of the assembled blocks [10, 11] and [20]. -/
theorem vector_to_dictionaries_mismatch :
    ocpVector [c1Phase] [] = [10, 11, 20]
    ∧ phaseVectorX c1Phase = [10, 11]
    ∧ phaseVectorU c1Phase = [20]
    ∧ toDictStates [c1Phase] (ocpVector [c1Phase] []) = [[10]]
    ∧ toDictControls [c1Phase] (ocpVector [c1Phase] []) = [[11]]
    ∧ toDictStates [c1Phase] (ocpVector [c1Phase] []) ≠ [phaseVectorX c1Phase]
    ∧ toDictControls [c1Phase] (ocpVector [c1Phase] []) ≠ [phaseVectorU c1Phase] := by
  decide

/-- C2 counterexample: a size-1 parameter without a callback followed
by a size-1 parameter with one.  The source passes the second callback
the slice [10] at offset 0 — the skipped parameter's position — while
the claim's bookkeeping (offset advancing by every declared size) would
pass it [20]. -/
theorem apply_parameters_claim_counterexample :
    applyParameters [{ size := 1, fn := none }, { size := 1, fn := some 0 }] [10, 20]
      = [(0, [10])]
    ∧ applyParametersDeclared [{ size := 1, fn := none }, { size := 1, fn := some 0 }] [10, 20]
      = [(0, [20])]
    ∧ applyParameters [{ size := 1, fn := none }, { size := 1, fn := some 0 }] [10, 20]
      ≠ applyParametersDeclared [{ size := 1, fn := none }, { size := 1, fn := some 0 }]
          [10, 20] := by
  decide

/-- C2 amended: apply_parameters slices the global parameter vector in
declaration order and hands each slice to the registered callback, but
the offset advances by a parameter's declared size only when that
parameter has a callback; a parameter with no callback is skipped
without advancing the offset, so the calls are exactly those obtained
by deleting the callback-less parameters from the declaration list
before slicing. -/
theorem apply_parameters_callback_offsets (ps : List ParamDecl) (v : List Int) :
    applyParameters ps v = applyParametersDeclared (ps.filter (fun p => p.fn.isSome)) v :=
  applyParametersFrom_filter ps v 0

/-- C4: for a phase with ns shooting intervals, the node set at which
the decision vector carries control samples is exactly range(ns) under
CONSTANT control (no terminal sample) and range(ns+1) under
LINEAR_CONTINUOUS; the per-phase control block in the decision vector
has one column per such node, and the bounds and initial-guess
assemblies allocate the same sample count (times the control
dimension for the flat block). -/
theorem control_block_sample_counts (ct : ControlType) (ns nu : Nat)
    (mat : List (List Int)) :
    vectorControlNodes ControlType.CONSTANT ns = List.range ns
    ∧ vectorControlNodes ControlType.LINEAR_CONTINUOUS ns = List.range (ns + 1)
    ∧ (phaseVectorU { ns := ns, controlType := ct, xmat := [], umat := mat }).length
        = mat.length * (vectorControlNodes ct ns).length
    ∧ boundsControlNs ct ns = (vectorControlNodes ct ns).length
    ∧ initControlNs ct ns = (vectorControlNodes ct ns).length
    ∧ boundsAllNu nu ct ns = nu * (vectorControlNodes ct ns).length := by
  have hlen : (vectorControlNodes ct ns).length = boundsControlNs ct ns := by
    cases ct with
    | CONSTANT => rw [vectorControlNodes_constant]; simp [boundsControlNs]
    | LINEAR_CONTINUOUS => rw [vectorControlNodes_linear]; simp [boundsControlNs]
  refine ⟨vectorControlNodes_constant ns, vectorControlNodes_linear ns, ?_, hlen.symm, ?_, ?_⟩
  · unfold phaseVectorU
    rw [length_concatMap_colAt, Nat.mul_comm]
  · rw [hlen]
    cases ct <;> rfl
  · unfold boundsAllNu
    rw [hlen]

/-- C5: for a direct-collocation phase, every non-terminal node
contributes degree+1 state samples per liberty and the terminal node
exactly 1, for a total of ns * (degree + 1) + 1 samples per liberty;
the bounds assembly allocates exactly nx times that count. -/
theorem collocation_state_sample_counts (nx ns degree k : Nat) (hk : k < ns) :
    stateSamplesAtNode true degree ns k = degree + 1
    ∧ stateSamplesAtNode true degree ns ns = 1
    ∧ totalStateSamples true degree ns = ns * (degree + 1) + 1
    ∧ boundsAllNx true nx ns degree = nx * totalStateSamples true degree ns := by
  have hnode : ∀ j, j < ns → stateSamplesAtNode true degree ns j = degree + 1 := by
    intro j hj
    simp [stateSamplesAtNode, Nat.ne_of_lt hj]
  have hterm : stateSamplesAtNode true degree ns ns = 1 := by
    simp [stateSamplesAtNode]
  have htot : totalStateSamples true degree ns = ns * (degree + 1) + 1 := by
    unfold totalStateSamples
    rw [List.range_succ, List.map_append, List.sum_append, map_range_const _ _ _ hnode]
    simp [hterm, List.sum_replicate, smul_eq_mul]
  refine ⟨hnode k hk, hterm, htot, ?_⟩
  rw [htot]
  unfold boundsAllNx
  simp
  ring

/-- C5 witness: a collocation phase with 3 intervals and polynomial
degree 2 has 3 samples at node 1, a single sample at the terminal node,
10 samples per liberty in total, and a bounds block of 2 * 10 rows for
2 state liberties. -/
theorem collocation_state_sample_counts_witness :
    stateSamplesAtNode true 2 3 1 = 2 + 1
    ∧ stateSamplesAtNode true 2 3 3 = 1
    ∧ totalStateSamples true 2 3 = 3 * (2 + 1) + 1
    ∧ boundsAllNx true 2 3 2 = 2 * totalStateSamples true 2 3 :=
  collocation_state_sample_counts 2 3 2 1 (by decide)

/-- C8: MultiFatigueModel.dynamics leaves every original derivative row
of dxdt unchanged and appends exactly one row per declared suffix, in
suffix-declaration order; FatigueUniqueList.dynamics does the same per
element, in element order.  (The per-suffix append is modelled from the
spec, the concrete fatigue laws being outside src.) -/
theorem fatigue_dynamics_appends_rows (law : String → Int) (sfx : List String)
    (elts : List (List String × (String → Int))) (dxdt : List Int) :
    multiFatigueDynamics law sfx dxdt = dxdt ++ sfx.map law
    ∧ (multiFatigueDynamics law sfx dxdt).take dxdt.length = dxdt
    ∧ (multiFatigueDynamics law sfx dxdt).length = dxdt.length + sfx.length
    ∧ fatigueUniqueListDynamics elts dxdt = dxdt ++ concatMap (fun e => e.1.map e.2) elts
    ∧ (fatigueUniqueListDynamics elts dxdt).take dxdt.length = dxdt := by
  refine ⟨multiFatigueDynamics_eq law sfx dxdt, ?_, ?_, fatigueUniqueListDynamics_eq elts dxdt, ?_⟩
  · rw [multiFatigueDynamics_eq]
    exact List.take_left dxdt (sfx.map law)
  · rw [multiFatigueDynamics_eq]
    simp
  · rw [fatigueUniqueListDynamics_eq]
    exact List.take_left dxdt (concatMap (fun e => e.1.map e.2) elts)

/-- C9: for a scale table of strictly positive factors matching the
vector slot for slot, converting to the internal representation and
back to the physical one is the identity. -/
theorem scaling_round_trip (scale x : List ℚ) (hlen : scale.length = x.length)
    (hpos : ∀ s ∈ scale, 0 < s) :
    toPhysical scale (toInternal scale x) = x := by
  induction x generalizing scale with
  | nil => simp [toPhysical, toInternal]
  | cons a t ih =>
    cases scale with
    | nil => simp at hlen
    | cons s u =>
      have hs : s ≠ 0 := ne_of_gt (hpos s (by simp))
      have ht : u.length = t.length := by simpa using hlen
      have hu : ∀ r ∈ u, 0 < r := fun r hr => hpos r (by simp [hr])
      simp only [toPhysical, toInternal, List.zipWith]
      rw [div_mul_cancel₀ a hs]
      have := ih u ht hu
      simp only [toPhysical, toInternal] at this
      rw [this]

/-- C9 witness: the round trip at the scale table [2, 4] and the
physical value [1, 3]. -/
theorem scaling_round_trip_witness :
    toPhysical [(2 : ℚ), 4] (toInternal [(2 : ℚ), 4] [1, 3]) = [1, 3] :=
  scaling_round_trip [(2 : ℚ), 4] [1, 3] (by decide) (by decide)

/-- C3 counterexample: with the explicit ODE variant, no contact and no
fatigue, torque_driven still computes a defect residual, so the defect
is not computed exactly when a DAE/implicit variant is requested. -/
theorem torque_driven_defects_counterexample :
    (defectsOf (torqueDriven mConcrete npConcrete RigidBodyDynamics.ODE false none)).isSome
      = true
    ∧ RigidBodyDynamics.ODE ≠ RigidBodyDynamics.DAE_INVERSE_DYNAMICS
    ∧ RigidBodyDynamics.ODE ≠ RigidBodyDynamics.DAE_FORWARD_DYNAMICS
    ∧ RigidBodyDynamics.ODE ≠ RigidBodyDynamics.DAE_INVERSE_DYNAMICS_JERK
    ∧ RigidBodyDynamics.ODE ≠ RigidBodyDynamics.DAE_FORWARD_DYNAMICS_JERK := by
  refine ⟨rfl, by decide, by decide, by decide, by decide⟩

/-- C3 (amended): in torque-driven dynamics the defect residual is
computed exactly when contact is not used and no fatigue list is
present, for every rigidbody variant alike; it then equals
[rate(q, qdot) - rate(q, qdot_declared); tau - inverse_dynamics(q,
qdot, qddot_declared)] with the inverse-dynamics rows un-mapped, and it
vanishes (is the all-zero vector) on a dynamically consistent
trajectory, i.e. when the declared qdot matches the state qdot and the
torque matches the inverse dynamics at the declared acceleration. -/
theorem torque_driven_defects_characterization (m : BioModel) (np : Nlp)
    (rbd : RigidBodyDynamics) (wc : Bool) (fat : Option FatigueListEmb)
    (hq : getVar np.statesDot "qdot_scaled" = getVar np.states "qdot_scaled")
    (ht : tauOfNlp np = m.inverseDynamics (getVar np.states "q_scaled")
            (getVar np.states "qdot_scaled") (getVar np.statesDot "qddot_scaled")) :
    ((defectsOf (torqueDriven m np rbd wc fat)).isSome = true
      ↔ (wc = false ∧ fat.isNone = true))
    ∧ defectsOf (torqueDriven m np rbd false none)
        = some (List.zipWith (fun a b => a - b)
                  (m.computeQdot (getVar np.states "q_scaled") (getVar np.states "qdot_scaled"))
                  (m.computeQdot (getVar np.states "q_scaled") (getVar np.statesDot "qdot_scaled"))
                ++ List.zipWith (fun a b => a - b) (tauOfNlp np)
                  (m.inverseDynamics (getVar np.states "q_scaled")
                    (getVar np.states "qdot_scaled") (getVar np.statesDot "qddot_scaled")))
    ∧ defectsOf (torqueDriven m np rbd false none)
        = some (List.replicate
            ((m.computeQdot (getVar np.states "q_scaled")
                (getVar np.states "qdot_scaled")).length
              + (tauOfNlp np).length) 0) := by
  have h2 : defectsOf (torqueDriven m np rbd false none)
      = some (List.zipWith (fun a b => a - b)
                (m.computeQdot (getVar np.states "q_scaled") (getVar np.states "qdot_scaled"))
                (m.computeQdot (getVar np.states "q_scaled") (getVar np.statesDot "qdot_scaled"))
              ++ List.zipWith (fun a b => a - b) (tauOfNlp np)
                (m.inverseDynamics (getVar np.states "q_scaled")
                  (getVar np.states "qdot_scaled") (getVar np.statesDot "qddot_scaled"))) := rfl
  refine ⟨?_, h2, ?_⟩
  · cases wc with
    | true =>
      cases fat with
      | none => simp [torqueDriven, getFatigableTau, defectsOf]
      | some fl =>
        cases hres : getFatigableTau np (some fl) with
        | error e => simp [torqueDriven, hres, defectsOf]
        | ok t => simp [torqueDriven, hres, defectsOf]
    | false =>
      cases fat with
      | none => simp [torqueDriven, getFatigableTau, defectsOf]
      | some fl =>
        cases hres : getFatigableTau np (some fl) with
        | error e => simp [torqueDriven, hres, defectsOf]
        | ok t => simp [torqueDriven, hres, defectsOf]
  · rw [h2, hq, ht, zipWith_sub_self, zipWith_sub_self, ← List.replicate_add]

/-- C3 witness: at the consistent concrete torque-driven phase, the
defect residual computed under the explicit variant is the zero
vector. -/
theorem torque_driven_defects_witness :
    defectsOf (torqueDriven mConcrete npConcrete RigidBodyDynamics.ODE false none)
      = some (List.replicate
          ((mConcrete.computeQdot (getVar npConcrete.states "q_scaled")
              (getVar npConcrete.states "qdot_scaled")).length
            + (tauOfNlp npConcrete).length) 0) :=
  (torque_driven_defects_characterization mConcrete npConcrete RigidBodyDynamics.ODE
    false none (by decide) (by decide)).2.2

/-- C6: a fatigue group heterogeneous in state_only or in
apply_to_joint_dynamics makes the dynamics assembly raise before any
derivative expression is produced, on the joint-torque path
(torque_driven) and on the muscle path (muscles_driven) alike.  On the
torque path a heterogeneous apply_to_joint_dynamics group raises
through the apply_to_joint_dynamics-not-implemented check, the intended
homogeneity check being dead code in the source. -/
theorem heterogeneous_fatigue_flags_error (m : BioModel) (np : Nlp)
    (rbd : RigidBodyDynamics) (wc wt : Bool) (g gm : FatigueGroupEmb)
    (hg : heterogeneousStateOnly g ∨ heterogeneousApplyToJoint g)
    (hgm : heterogeneousStateOnly gm ∨ heterogeneousApplyToJoint gm) :
    isError (torqueDriven m np rbd wc (some { tau := some g, muscles := none })) = true
    ∧ isError (musclesDriven m np wc rbd wt (some { tau := none, muscles := some gm }))
        = true := by
  have h1 : isError (getFatigableTauChecked np g) = true := by
    by_cases hso : 0 < nStateOnly g ∧ nStateOnly g < g.elts.length
    · simp [getFatigableTauChecked, hso, isError]
    · have hap : heterogeneousApplyToJoint g := hg.resolve_left hso
      have hne : nApplyToJoint g ≠ 0 := Nat.pos_iff_ne_zero.mp hap.1
      simp [getFatigableTauChecked, hso, hne, isError]
  have h2 : ∀ ma, isError (muscleFatigueChecks np gm ma) = true := by
    intro ma
    cases hsfx : gm.suffix with
    | nil => simp [muscleFatigueChecks, hsfx, isError]
    | cons fn rest =>
      by_cases hso : 0 < nStateOnly gm ∧ nStateOnly gm < gm.elts.length
      · simp [muscleFatigueChecks, hsfx, hso, isError]
      · have hap : heterogeneousApplyToJoint gm := hgm.resolve_left hso
        simp [muscleFatigueChecks, hsfx, hso, hap.1, hap.2, isError]
  constructor
  · cases hres : getFatigableTauChecked np g with
    | error e => simp [torqueDriven, getFatigableTau, hres, isError]
    | ok t => rw [hres] at h1; simp [isError] at h1
  · have hx := h2 (getVar
      (if (np.states "muscles_scaled").isSome then np.states else np.controls)
      "muscles_scaled")
    cases hmc : muscleFatigueChecks np gm (getVar
        (if (np.states "muscles_scaled").isSome then np.states else np.controls)
        "muscles_scaled") with
    | error e =>
      cases wt <;>
        simp [musclesDriven, getFatigableTau, muscleFatigueResolve, hmc, isError]
    | ok pr => rw [hmc] at hx; simp [isError] at hx

/-- C6 witness: a two-element torque fatigue group split on state_only
and a two-element muscle fatigue group split on
apply_to_joint_dynamics both make the respective dynamics evaluation
raise. -/
theorem heterogeneous_fatigue_flags_error_witness :
    isError (torqueDriven mConcrete npConcrete RigidBodyDynamics.ODE false
      (some { tau := some gHetStateOnly, muscles := none })) = true
    ∧ isError (musclesDriven mConcrete npConcrete false RigidBodyDynamics.ODE false
      (some { tau := none, muscles := some gHetApply })) = true :=
  heterogeneous_fatigue_flags_error mConcrete npConcrete RigidBodyDynamics.ODE false false
    gHetStateOnly gHetApply
    (Or.inl (by unfold heterogeneousStateOnly; decide))
    (Or.inr (by unfold heterogeneousApplyToJoint; decide))

/-- C7 counterexample: an evaluation with a fatigue list present can
raise (here the heterogeneous apply_to_joint_dynamics group reaches the
not-implemented check), so evaluations with fatigue do not universally
return without error as the claim states. -/
theorem defect_skip_claim_counterexample :
    isError (torqueDriven mConcrete npConcrete RigidBodyDynamics.ODE false
      (some { tau := some gHetApply, muscles := none })) = true := by
  decide

/-- C7 (amended): whenever contact forces are used or a fatigue list is
present, every torque-driven evaluation that returns does so with the
defects absent (None); the defect skip itself raises nothing — with
contact and no fatigue list the evaluation always returns — though
fatigue validation may still raise before the skip is reached. -/
theorem defect_skip_on_contact_or_fatigue (m : BioModel) (np : Nlp)
    (rbd : RigidBodyDynamics) (wc : Bool) (fat : Option FatigueListEmb)
    (h : wc = true ∨ fat.isSome = true) :
    (∀ d dfs, torqueDriven m np rbd wc fat = Except.ok (d, dfs) → dfs = none)
    ∧ (fat.isNone = true → isError (torqueDriven m np rbd wc fat) = false) := by
  constructor
  · intro d dfs hok
    cases wc with
    | true =>
      cases hres : getFatigableTau np fat with
      | error e => simp [torqueDriven, hres] at hok
      | ok t =>
        simp [torqueDriven, hres] at hok
        exact hok.2.symm
    | false =>
      cases fat with
      | none => simp at h
      | some fl =>
        cases hres : getFatigableTau np (some fl) with
        | error e => simp [torqueDriven, hres] at hok
        | ok t =>
          simp [torqueDriven, hres] at hok
          exact hok.2.symm
  · intro hnone
    cases fat with
    | some fl => simp at hnone
    | none => simp [torqueDriven, getFatigableTau, isError]

/-- C7 witness: with contact and no fatigue, the concrete torque-driven
evaluation returns without error and with defects absent. -/
theorem defect_skip_on_contact_or_fatigue_witness :
    defectsOf (torqueDriven mConcrete npConcrete RigidBodyDynamics.ODE true none) = none
    ∧ isError (torqueDriven mConcrete npConcrete RigidBodyDynamics.ODE true none) = false := by
  have h := defect_skip_on_contact_or_fatigue mConcrete npConcrete RigidBodyDynamics.ODE
    true none (Or.inl rfl)
  refine ⟨?_, h.2 rfl⟩
  cases hres : torqueDriven mConcrete npConcrete RigidBodyDynamics.ODE true none with
  | error e => simp [defectsOf]
  | ok pr =>
    have hd := h.1 pr.1 pr.2 (by rw [hres])
    simp [defectsOf, hd]

/-- C10: add_parameter raises when an existing entry of the same name
differs in its pre-dynamics function or its extra params; when both
match it merges into the existing entry in place (size summed, cx, mx
and scaling vertically concatenated, bounds and initial guess
concatenated), leaving the set of pool names unchanged; a genuinely new
name is appended to the pool. -/
theorem add_parameter_rules (ps : List Parameter) (p e : Parameter) :
    (findParam ps p.name = some e → e.function ≠ p.function →
      isError (addParameter ps p) = true)
    ∧ (findParam ps p.name = some e → e.function = p.function → e.params ≠ p.params →
      isError (addParameter ps p) = true)
    ∧ (findParam ps p.name = some e → e.function = p.function → e.params = p.params →
      addParameter ps p = Except.ok (replaceFirst ps p.name (mergeParam e p))
      ∧ paramNames (replaceFirst ps p.name (mergeParam e p)) = paramNames ps)
    ∧ (findParam ps p.name = none →
      addParameter ps p = Except.ok (ps ++ [p])
      ∧ paramNames (ps ++ [p]) = paramNames ps ++ [p.name]) := by
  induction ps with
  | nil =>
    refine ⟨?_, ?_, ?_, ?_⟩
    · intro h; simp [findParam] at h
    · intro h; simp [findParam] at h
    · intro h; simp [findParam] at h
    · intro _; exact ⟨rfl, by simp [paramNames]⟩
  | cons e0 rest ih =>
    by_cases h0 : (e0.name == p.name) = true
    · have hfind : findParam (e0 :: rest) p.name = some e0 := by
        simp [findParam, h0]
      refine ⟨?_, ?_, ?_, ?_⟩
      · intro h hfn
        rw [hfind] at h
        injection h with h
        subst h
        simp [addParameter, h0, hfn, isError]
      · intro h hfn hpr
        rw [hfind] at h
        injection h with h
        subst h
        simp [addParameter, h0, hfn, Ne.symm hpr, isError]
      · intro h hfn hpr
        rw [hfind] at h
        injection h with h
        subst h
        constructor
        · simp [addParameter, h0, hfn, hpr, replaceFirst, mergeParam]
        · simp [replaceFirst, h0, paramNames, mergeParam]
      · intro h
        rw [hfind] at h
        cases h
    · have hb : (e0.name == p.name) = false := by
        simpa using h0
      have hfind : findParam (e0 :: rest) p.name = findParam rest p.name := by
        simp [findParam, hb]
      refine ⟨?_, ?_, ?_, ?_⟩
      · intro h hfn
        rw [hfind] at h
        have hi := ih.1 h hfn
        cases har : addParameter rest p with
        | error msg => simp [addParameter, hb, har, isError]
        | ok r2 => rw [har] at hi; simp [isError] at hi
      · intro h hfn hpr
        rw [hfind] at h
        have hi := ih.2.1 h hfn hpr
        cases har : addParameter rest p with
        | error msg => simp [addParameter, hb, har, isError]
        | ok r2 => rw [har] at hi; simp [isError] at hi
      · intro h hfn hpr
        rw [hfind] at h
        have hi := (ih.2.2.1) h hfn hpr
        constructor
        · simp [addParameter, hb, hi.1, replaceFirst]
        · have hn := hi.2
          simp only [paramNames, List.map_cons] at hn ⊢
          simp [replaceFirst, hb, List.map_cons]
          simpa [paramNames] using hn
      · intro h
        rw [hfind] at h
        have hi := (ih.2.2.2) h
        refine ⟨?_, ?_⟩
        · simp [addParameter, hb, hi.1]
        · simp [paramNames]

/-- C10 witness: merging a second "mass" parameter with matching
function and params into the pool grows the existing entry and leaves
the name set unchanged. -/
theorem add_parameter_rules_witness :
    addParameter [pMassA] pMassB
        = Except.ok (replaceFirst [pMassA] pMassB.name (mergeParam pMassA pMassB))
    ∧ paramNames (replaceFirst [pMassA] pMassB.name (mergeParam pMassA pMassB))
        = paramNames [pMassA] :=
  (add_parameter_rules [pMassA] pMassB pMassA).2.2.1 (by decide) (by decide) (by decide)

end BiorbdOptim
